import Mathlib

/-!
Verification of the dimandocs documentation-browser pipeline.

The Go sources (`models.go`, `config.go`, `main.go`) are shallowly embedded
below: pure Go helpers become Lean functions on `String`/`List`, the
stateful directory walk becomes a recursion over an explicit file-system
tree, the nondeterministic iteration order of Go maps becomes an explicit
order parameter, and file-system reads become a `String → Option String`
environment.  Strings are modelled at the level of their character lists;
Go's Unicode-aware helpers (`strings.ToLower`, `strings.TrimSpace`,
case-insensitive regexps) are modelled at ASCII granularity, which covers
every string the program's own literals and the claims exercise.
-/

/-! ## Models of the Go `strings` and `path/filepath` primitives -/

/-- Model of Go's `unicode.IsSpace` restricted to the ASCII whitespace
characters (space, tab, newline, carriage return, vertical tab, form feed). -/
def goIsSpace (c : Char) : Bool :=
  c = ' ' || c = '\t' || c = '\n' || c = '\r' || c = '\x0b' || c = '\x0c'

/-- Model of Go's `strings.TrimSpace`: drop whitespace from both ends. -/
def goTrimSpace (s : String) : String :=
  ⟨((s.data.dropWhile goIsSpace).reverse.dropWhile goIsSpace).reverse⟩

/-- Model of Go's `strings.HasPrefix`. -/
def goHasPrefix (s pre : String) : Bool :=
  pre.data.isPrefixOf s.data

/-- Model of Go's `strings.HasSuffix`. -/
def goHasSuffix (s suf : String) : Bool :=
  suf.data.isSuffixOf s.data

/-- Model of Go's `strings.TrimPrefix`: remove `pre` once if present. -/
def goTrimPrefix (s pre : String) : String :=
  if goHasPrefix s pre then ⟨s.data.drop pre.data.length⟩ else s

/-- Model of Go's `strings.Contains`: `sub` occurs as a contiguous substring. -/
def goContains (s sub : String) : Bool :=
  decide (sub.data <:+: s.data)

/-- Model of Go's `strings.Join`. -/
def goJoin (elems : List String) (sep : String) : String :=
  String.intercalate sep elems

/-- Model of Go's `strings.ToLower` at ASCII granularity: lowercase every
character. -/
def goToLower (s : String) : String :=
  ⟨s.data.map Char.toLower⟩

/-- Auxiliary splitter: cut a character list at every occurrence of `sep`,
accumulating the current (reversed) piece. -/
def splitCharAux (sep : Char) : List Char → List Char → List (List Char)
  | [], acc => [acc.reverse]
  | c :: cs, acc =>
    if c = sep then acc.reverse :: splitCharAux sep cs []
    else splitCharAux sep cs (c :: acc)

/-- Model of Go's `strings.Split` for a single-character separator (the
program only ever splits on `"\n"` and, via `filepath`, on `/`). -/
def splitOnChar (sep : Char) (s : String) : List String :=
  (splitCharAux sep s.data []).map (fun cs => ⟨cs⟩)

/-- The line decomposition `strings.Split(content, "\n")` used throughout
`models.go`. -/
def goSplitLines (s : String) : List String :=
  splitOnChar '\n' s

/-! ## The data model (`models.go`) -/

/-- `Document` from `models.go`: a parsed markdown document. -/
structure Document where
  Title : String
  Path : String
  Content : String
  RelPath : String
  DirName : String
  SourceDir : String
  SourceName : String
  AbsPath : String
  Overview : String
deriving DecidableEq, Repr

/-- `DirectoryConfig` from `models.go`. -/
structure DirectoryConfig where
  Path : String
  Name : String
  FilePattern : String
deriving DecidableEq, Repr

/-- `Config` from `models.go`. -/
structure Config where
  Directories : List DirectoryConfig
  Port : String
  Title : String
  IgnorePatterns : List String
deriving DecidableEq, Repr

/-- `CachedDocument`: the persisted shape of a document, every `Document`
field except `Content`.  The struct declaration itself is not among the
provided sources; its field set is reconstructed from its only uses, in
`saveToCache` and `loadFromCache`, which read and write exactly these
eight fields (the spec confirms: "Document minus Content"). -/
structure CachedDocument where
  Title : String
  Path : String
  RelPath : String
  DirName : String
  SourceDir : String
  SourceName : String
  AbsPath : String
  Overview : String
deriving DecidableEq, Repr

/-- `CacheData`: the persisted cache file contents (documents plus the
running version string). -/
structure CacheData where
  Documents : List CachedDocument
  Version : String
deriving DecidableEq, Repr

/-! ## Cache save/load (`saveToCache`, `loadFromCache` in `models.go`)

`saveToCache` marshals a `CacheData` value to JSON and writes it to
`.dimandocs-cache.json`; `loadFromCache` reads that file back and
unmarshals it.  Go's `encoding/json` round-trips these all-string structs
faithfully, so the JSON byte stage is modelled as the identity and the
cache layer is embedded as the pair of structural conversions the two
functions perform. -/

/-- `saveToCache` (models.go): convert every document to a `CachedDocument`
(dropping `Content`) and tag the snapshot with the version string. -/
def saveToCache (version : String) (docs : List Document) : CacheData :=
  { Documents := docs.map (fun doc =>
      { Title := doc.Title
        Path := doc.Path
        RelPath := doc.RelPath
        DirName := doc.DirName
        SourceDir := doc.SourceDir
        SourceName := doc.SourceName
        AbsPath := doc.AbsPath
        Overview := doc.Overview })
    Version := version }

/-- `loadFromCache` (models.go): convert every `CachedDocument` back to a
`Document`, leaving `Content` empty (the "unloaded" sentinel). -/
def loadFromCache (cache : CacheData) : List Document :=
  cache.Documents.map (fun cached =>
    { Title := cached.Title
      Path := cached.Path
      Content := ""
      RelPath := cached.RelPath
      DirName := cached.DirName
      SourceDir := cached.SourceDir
      SourceName := cached.SourceName
      AbsPath := cached.AbsPath
      Overview := cached.Overview })

/-! ## Content loading (`loadDocumentContents`, `handleDocument`)

File reads are modelled by an environment `fs : String → Option String`
(`none` = `ioutil.ReadFile` error). -/

/-- `loadDocumentContents` (models.go): fill `Content` for every document
whose content is still empty; a failed read logs and skips the document. -/
def loadDocumentContents (fs : String → Option String) (docs : List Document) :
    List Document :=
  docs.map (fun d =>
    if d.Content ≠ "" then d
    else
      match fs d.Path with
      | none => d
      | some content => { d with Content := content })

/-- The on-demand load step of `handleDocument` (models.go): if the looked-up
document's `Content` is empty, read the file at its `Path`; on a read error
the handler answers HTTP 500 and the stored document is left unchanged. -/
def handleDocumentLoad (fs : String → Option String) (d : Document) : Document :=
  if d.Content = "" then
    match fs d.Path with
    | none => d
    | some content => { d with Content := content }
  else d

/-- The per-document contract of a content-loading step: non-empty content
is left alone, empty content becomes the file's contents (or stays empty on
a failed read), and no other field changes. -/
def contentLoadOk (fs : String → Option String) (d d' : Document) : Prop :=
  (d.Content ≠ "" → d' = d) ∧
  (d.Content = "" → d'.Content = (fs d.Path).getD "") ∧
  d'.Title = d.Title ∧ d'.Path = d.Path ∧ d'.RelPath = d.RelPath ∧
  d'.DirName = d.DirName ∧ d'.SourceDir = d.SourceDir ∧
  d'.SourceName = d.SourceName ∧ d'.AbsPath = d.AbsPath ∧
  d'.Overview = d.Overview

/-! ## Models of `path/filepath` (Unix rules)

These follow the algorithms of Go's `path/filepath` on a Unix separator,
working segment-wise on slash-split paths. -/

/-- One step of `filepath.Clean`'s element processing: empty and `.`
elements are dropped, `..` pops the previous element when possible (and is
dropped at the root of an absolute path), anything else is appended. -/
def cleanStep (rooted : Bool) (acc : List String) (seg : String) : List String :=
  if seg = "" || seg = "." then acc
  else if seg = ".." then
    match acc.getLast? with
    | some lastSeg => if lastSeg = ".." then acc ++ [".."] else acc.dropLast
    | none => if rooted then [] else [".."]
  else acc ++ [seg]

/-- Model of `filepath.Clean` (Unix). -/
def goFilepathClean (path : String) : String :=
  if path = "" then "."
  else
    let rooted := goHasPrefix path "/"
    let out := (splitOnChar '/' path).foldl (cleanStep rooted) []
    if rooted then "/" ++ String.intercalate "/" out
    else if out = [] then "." else String.intercalate "/" out

/-- Model of `filepath.Base` (Unix): strip trailing slashes, take the part
after the last slash; `""` gives `"."` and an all-slash path gives `"/"`. -/
def goFilepathBase (path : String) : String :=
  if path = "" then "."
  else
    let stripped : List Char := (path.data.reverse.dropWhile (· = '/')).reverse
    let afterSlash : List Char := (stripped.reverse.takeWhile (· ≠ '/')).reverse
    if afterSlash = [] then "/" else ⟨afterSlash⟩

/-- Model of `filepath.Dir` (Unix): everything up to and including the last
slash, cleaned (no slash at all gives `Clean "" = "."`). -/
def goFilepathDir (path : String) : String :=
  goFilepathClean ⟨(path.data.reverse.dropWhile (· ≠ '/')).reverse⟩

/-- Model of `filepath.Abs` with an explicit working directory: an absolute
path is cleaned, a relative one is joined onto the working directory. -/
def goFilepathAbs (wd path : String) : String :=
  if goHasPrefix path "/" then goFilepathClean path
  else goFilepathClean (wd ++ "/" ++ path)

/-- Segment view of a cleaned path for `filepath.Rel`'s element walk: the
string walk of `"/"` sees a single empty element. -/
def pathCompSegs (s : String) : List String :=
  if s = "/" then [""] else splitOnChar '/' s

/-- Tail of `filepath.Rel`: the remaining base elements (after the common
prefix) each become `..`; a leading `..` among them is an error. -/
def mkRelTail (bs ts : List String) : Option String :=
  if bs.head? = some ".." then none
  else some (String.intercalate "/" (bs.map (fun _ => "..") ++ ts))

/-- Strip the common leading elements of base and target, then build the
relative path. -/
def relFromSegs : List String → List String → Option String
  | [], ts => some (String.intercalate "/" ts)
  | b :: bs, [] => mkRelTail (b :: bs) []
  | b :: bs, t :: ts =>
    if b = t then relFromSegs bs ts else mkRelTail (b :: bs) (t :: ts)

/-- Model of `filepath.Rel` (Unix): clean both paths, require both absolute
or both relative, strip the common element prefix, and climb with `..` for
every remaining base element. -/
def goFilepathRel (base targ : String) : Option String :=
  let b := goFilepathClean base
  let t := goFilepathClean targ
  if t = b then some "."
  else
    let b' := if b = "." then "" else b
    if (goHasPrefix b' "/" ≠ goHasPrefix t "/") then none
    else
      let bs := if b' = "" then [] else pathCompSegs b'
      relFromSegs bs (pathCompSegs t)

/-! ## Overview extraction (`extractOverviewParagraph` in `models.go`) -/

/-- The body of `extractOverviewParagraph`'s line loop, with the
`foundOverview` flag and the collected `paragraphLines` as explicit state;
returning without recursing models the loop's `break`. -/
def extractOverviewLoop : List String → Bool → List String → List String
  | [], _, acc => acc
  | line :: rest, foundOverview, acc =>
    let trimmedLine := goTrimSpace line
    if goHasPrefix trimmedLine "## Overview" then
      extractOverviewLoop rest true acc
    else if foundOverview then
      if trimmedLine = "" && acc.isEmpty then
        extractOverviewLoop rest foundOverview acc
      else if (goHasPrefix trimmedLine "#" || trimmedLine = "") && !acc.isEmpty then
        acc
      else if trimmedLine ≠ "" then
        extractOverviewLoop rest foundOverview (acc ++ [trimmedLine])
      else
        extractOverviewLoop rest foundOverview acc
    else
      extractOverviewLoop rest foundOverview acc

/-- `extractOverviewParagraph` (models.go): the first paragraph after a
`## Overview` heading, lines joined with single spaces. -/
def extractOverviewParagraph (content : String) : String :=
  goJoin (extractOverviewLoop (goSplitLines content) false []) " "

/-! ## File processing (`processFile` in `models.go`)

`processFile` reads the file and builds the `Document`; here the file's
content is passed in (the scan model only calls it for files that exist in
the modelled tree, matching the read-success path), and the process working
directory `wd` is `App.WorkingDir`. -/

/-- `processFile` (models.go): derive every `Document` field from the file
path, the scanned root, the configured source name and the file content. -/
def processFile (wd rootDir sourceName path content : String) : Document :=
  let relPath := (goFilepathRel rootDir path).getD ""
  let dirName0 := goFilepathDir relPath
  let dirName1 := if dirName0 = "." then "Root" else dirName0
  let filename := goFilepathBase path
  let dirName := if dirName1 = "Root" then filename else dirName1 ++ "/" ++ filename
  let absPath := goFilepathAbs wd path
  let absDir := goFilepathDir absPath
  let relAbsDir0 := (goFilepathRel wd absDir).getD ""
  let relAbsDir :=
    if goHasPrefix relAbsDir0 "../" then "/" ++ goTrimPrefix relAbsDir0 "../"
    else relAbsDir0
  let title :=
    if goContains content "# " then
      match (goSplitLines content).find? (fun line => goHasPrefix line "# ") with
      | some line => goTrimPrefix line "# "
      | none => dirName
    else dirName
  { Title := title
    Path := path
    Content := content
    RelPath := relPath
    DirName := dirName
    SourceDir := rootDir
    SourceName := sourceName
    AbsPath := relAbsDir
    Overview := extractOverviewParagraph content }

/-! ## Directory scanning (`scanDirectory`, `shouldIgnorePath`)

The file system is an explicit tree; compiled regexps are abstracted as
`String → Bool` matchers.  A path under construction is carried as its
segment list (`filepath.Walk` joins child names onto the parent path), and
`joinPath` renders it to the string the Go code tests and stores. -/

/-- A file-system entry: a file with its content, or a directory with its
child entries. -/
inductive FSEntry where
  | file (name content : String) : FSEntry
  | dir (name : String) (entries : List FSEntry) : FSEntry

/-- The name of an entry (`os.FileInfo.Name()`). -/
def FSEntry.entryName : FSEntry → String
  | .file n _ => n
  | .dir n _ => n

/-- Render a segment-list path to the path string `filepath.Walk` passes to
the walk function. -/
def joinPath (segs : List String) : String :=
  String.intercalate "/" segs

/-- `shouldIgnorePath` (models.go): true when any compiled ignore pattern
matches the full path. -/
def shouldIgnorePath (ignoreRegexes : List (String → Bool)) (path : String) : Bool :=
  ignoreRegexes.any (fun regex => regex path)

mutual
/-- The walk function of `scanDirectory` (models.go) on one entry: an
ignored directory is pruned whole (`filepath.SkipDir`), an ignored file is
skipped, and a file whose name matches the directory's file regexp is
processed into a `Document`. -/
def walkScan (ign : List (String → Bool)) (fileRegex : String → Bool)
    (wd rootDir sourceName : String) (segs : List String) :
    FSEntry → List Document
  | .file _ content =>
    if shouldIgnorePath ign (joinPath segs) then []
    else if fileRegex (goFilepathBase (joinPath segs)) then
      [processFile wd rootDir sourceName (joinPath segs) content]
    else []
  | .dir _ entries =>
    if shouldIgnorePath ign (joinPath segs) then []
    else walkScanList ign fileRegex wd rootDir sourceName segs entries

/-- Walk the children of a directory in order, joining each child's name
onto the parent path. -/
def walkScanList (ign : List (String → Bool)) (fileRegex : String → Bool)
    (wd rootDir sourceName : String) (segs : List String) :
    List FSEntry → List Document
  | [] => []
  | e :: es =>
    walkScan ign fileRegex wd rootDir sourceName (segs ++ [e.entryName]) e ++
    walkScanList ign fileRegex wd rootDir sourceName segs es
end

/-- `scanDirectory` (models.go): walk the configured root (given by its
segment-list path and its tree) and collect the produced documents in walk
order. -/
def scanDirectory (ign : List (String → Bool)) (fileRegex : String → Bool)
    (wd sourceName : String) (rootSegs : List String) (root : FSEntry) :
    List Document :=
  walkScan ign fileRegex wd (joinPath rootSegs) sourceName rootSegs root

/-! ## Search (`handleSearch` in `models.go`)

The handler is modelled over the in-memory document list (in the cache
path the handler first fills empty contents from disk; the list passed
here carries whatever contents the handler then searches). -/

/-- The per-document match of `handleSearch`: the lowercased, trimmed query
occurs in the lowercased title, content or overview. -/
def searchMatches (query : String) (d : Document) : Bool :=
  goContains (goToLower d.Title) query ||
  goContains (goToLower d.Content) query ||
  goContains (goToLower d.Overview) query

/-- `handleSearch` (models.go): lowercase and trim the raw query; an empty
result of that is answered with an empty list, otherwise the documents are
filtered by `searchMatches`. -/
def handleSearchResults (docs : List Document) (rawQuery : String) : List Document :=
  let query := goToLower (goTrimSpace rawQuery)
  if query = "" then []
  else docs.filter (searchMatches query)

/-! ## Frontmatter stripping (`stripFrontmatter` in `models.go`) -/

/-- The closing-delimiter loop of `stripFrontmatter`: find the first line
trimming to `---` and return the lines after it. -/
def stripFMLoop : List String → Option (List String)
  | [] => none
  | l :: ls => if goTrimSpace l = "---" then some ls else stripFMLoop ls

/-- `stripFrontmatter` (models.go): content not starting with a `---`
delimiter line, or with fewer than three lines, or without a closing line
trimming to `---`, is returned unchanged; otherwise the lines after the
first closing delimiter are rejoined with newlines. -/
def stripFrontmatter (content : String) : String :=
  if !(goHasPrefix content "---\n" || goHasPrefix content "---\r\n") then content
  else
    let lines := goSplitLines content
    if lines.length < 3 then content
    else
      match stripFMLoop (lines.drop 1) with
      | some rest => goJoin rest "\n"
      | none => content

/-! ## Directory trees (`BuildDirectoryTrees`, `addDocumentToTree`) -/

/-- `TreeNode` from `models.go`: a node of the sidebar directory tree. -/
inductive TreeNode where
  | mk (name path : String) (isFile : Bool) (document : Option Document)
      (children : List TreeNode) (isOpen : Bool) : TreeNode

/-- The `Name` field of a `TreeNode`. -/
def TreeNode.nodeName : TreeNode → String
  | .mk n _ _ _ _ _ => n

/-- The `Children` field of a `TreeNode`. -/
def TreeNode.nodeChildren : TreeNode → List TreeNode
  | .mk _ _ _ _ cs _ => cs

/-- Replace the `Children` field of a `TreeNode`. -/
def TreeNode.setChildren : TreeNode → List TreeNode → TreeNode
  | .mk n p f d _ o, cs => .mk n p f d cs o

/-- `DirectoryTree` from `models.go`. -/
structure DirectoryTree where
  Name : String
  Root : TreeNode

/-- The segment loop of `addDocumentToTree` (models.go): walk the path
parts, reusing the first child whose name matches the part and creating a
new node (appended after its siblings) otherwise; the node for the final
part is created as a file node owning the document. -/
def insertParts (doc : Document) : TreeNode → String → List String → TreeNode
  | node, _, [] => node
  | node, currentPath, part :: rest =>
    let newPath := if currentPath = "" then part else currentPath ++ "/" ++ part
    let isFile := rest.isEmpty
    match (node.nodeChildren).findIdx? (fun child => child.nodeName = part) with
    | some i =>
      match (node.nodeChildren).get? i with
      | some child =>
        node.setChildren ((node.nodeChildren).set i (insertParts doc child newPath rest))
      | none => node
    | none =>
      let newNode : TreeNode :=
        .mk part newPath isFile (if isFile then some doc else none) [] false
      node.setChildren ((node.nodeChildren) ++ [insertParts doc newNode newPath rest])

/-- `addDocumentToTree` (models.go): split the document's path relative to
its source directory into parts (the path itself if `Rel` fails) and insert
them under the root. -/
def addDocumentToTree (root : TreeNode) (doc : Document) (sourceDir : String) :
    TreeNode :=
  let relPath := (goFilepathRel sourceDir doc.Path).getD doc.Path
  insertParts doc root "" (splitOnChar '/' relPath)

/-- The contents of `groupMap[sourceName]` in `BuildDirectoryTrees`: the
documents with that source name, in document order. -/
def groupDocs (docs : List Document) (sourceName : String) : List Document :=
  docs.filter (fun doc => doc.SourceName = sourceName)

/-- The tree built for one source name in `BuildDirectoryTrees`: a synthetic
open root named after the source, with every grouped document inserted in
order. -/
def buildTreeFor (docs : List Document) (sourceName : String) : DirectoryTree :=
  let root : TreeNode := .mk sourceName "" false none [] true
  { Name := sourceName
    Root := (groupDocs docs sourceName).foldl
      (fun r doc => addDocumentToTree r doc doc.SourceDir) root }

/-- `BuildDirectoryTrees` (models.go).  Go iterates `groupMap` in an
unspecified order; `order` makes that nondeterminism explicit as the list
of source names the iteration visits (a permutation of the distinct source
names of `docs`). -/
def BuildDirectoryTrees (docs : List Document) (order : List String) :
    List DirectoryTree :=
  order.map (buildTreeFor docs)

/-! ## Configuration (`config.go`) -/

/-- The per-directory file-pattern selection of `LoadConfig` (config.go):
an unset `file_pattern` falls back to the literal `^(?i)(readme\.md)$`. -/
def filePatternFor (dirConfig : DirectoryConfig) : String :=
  if dirConfig.FilePattern = "" then "^(?i)(readme\\.md)$" else dirConfig.FilePattern

/-- Semantics of the compiled default pattern `^(?i)(readme\.md)$`: it is
anchored at both ends, so it accepts exactly the filenames that
case-insensitively equal `readme.md` (ASCII case folding). -/
def readmePatternMatches (filename : String) : Bool :=
  goToLower filename = "readme.md"

/-- Semantics of the pattern `\.md$` used by `getDefaultConfig` and the
target-path overrides: any filename ending in `.md`. -/
def mdSuffixPatternMatches (filename : String) : Bool :=
  goHasSuffix filename ".md"

/-- `getDefaultConfig` (config.go): the built-in configuration used when no
`dimandocs.json` exists, scanning `./` for any `.md` file. -/
def getDefaultConfig : Config :=
  { Directories := [{ Path := "./", Name := "Documents", FilePattern := "\\.md$" }]
    Port := "8090"
    Title := "Documentation Browser"
    IgnorePatterns :=
      [".*/node_modules/.*", ".*/\\.git/.*", ".*/vendor/.*", ".*/build/.*",
       ".*/dist/.*"] }

/-! ## Spec-side formulations

Functions written after the specification's wording (not after the code),
used to compare the code's behavior with what the spec claims. -/

/-- Spec wording, shared search phase: the lines after the first line whose
trimmed form starts with `## Overview` (`none` when there is no such line). -/
def overviewHeadingFind : List String → Option (List String)
  | [] => none
  | l :: ls =>
    if goHasPrefix (goTrimSpace l) "## Overview" then some ls
    else overviewHeadingFind ls

/-- Claim wording for the paragraph collection: skip blank lines before any
content, then collect trimmed non-blank lines, stopping at the next heading
(any line whose trimmed form starts with `#`) or blank line once at least
one content line was collected. -/
def overviewClaimCollect : List String → List String → List String
  | [], acc => acc
  | l :: ls, acc =>
    let t := goTrimSpace l
    if t = "" then (if acc.isEmpty then overviewClaimCollect ls acc else acc)
    else if goHasPrefix t "#" && !acc.isEmpty then acc
    else overviewClaimCollect ls (acc ++ [t])

/-- The overview extraction exactly as the claim words it. -/
def overviewClaimSpec (content : String) : String :=
  match overviewHeadingFind (goSplitLines content) with
  | none => ""
  | some rest => goJoin (overviewClaimCollect rest []) " "

/-- Amended wording for the paragraph collection: as the claim, except that
a line whose trimmed form starts with `## Overview` is always skipped and
never stops the collection. -/
def overviewAmendedCollect : List String → List String → List String
  | [], acc => acc
  | l :: ls, acc =>
    let t := goTrimSpace l
    if goHasPrefix t "## Overview" then overviewAmendedCollect ls acc
    else if t = "" then
      (if acc.isEmpty then overviewAmendedCollect ls acc else acc)
    else if goHasPrefix t "#" then
      (if acc.isEmpty then overviewAmendedCollect ls (acc ++ [t]) else acc)
    else overviewAmendedCollect ls (acc ++ [t])

/-- The overview extraction as the amended claim words it. -/
def overviewAmendedSpec (content : String) : String :=
  match overviewHeadingFind (goSplitLines content) with
  | none => ""
  | some rest => goJoin (overviewAmendedCollect rest []) " "

/-- Frontmatter stripping as the amended claim words it: content is
returned unchanged unless it begins with a `---` delimiter line, splits
into at least three lines, and some later line trims to exactly `---`;
when all three hold, the result is the lines after the first such closing
line, rejoined with newlines. -/
def stripFrontmatterSpec (content : String) : String :=
  let lines := goSplitLines content
  if (goHasPrefix content "---\n" || goHasPrefix content "---\r\n") &&
      decide (3 ≤ lines.length) &&
      (lines.drop 1).any (fun l => decide (goTrimSpace l = "---")) then
    goJoin
      (((lines.drop 1).dropWhile (fun l => !decide (goTrimSpace l = "---"))).drop 1)
      "\n"
  else content

/-! ## Helper lemmas -/

/-- A `String` is empty exactly when its character list is. -/
theorem string_mk_eq_empty_iff (l : List Char) : (⟨l⟩ : String) = "" ↔ l = [] := by
  constructor
  · intro h
    exact String.ext_iff.mp h
  · intro h
    subst h
    rfl

/-- `goToLower` preserves emptiness. -/
theorem goToLower_eq_empty_iff (s : String) : goToLower s = "" ↔ s = "" := by
  unfold goToLower
  rw [string_mk_eq_empty_iff, List.map_eq_nil_iff]
  exact (string_mk_eq_empty_iff s.data).symm.trans (by rfl)

/-- The content-loading step applied by both loaders satisfies the
per-document contract. -/
theorem loadStep_contentLoadOk (fs : String → Option String) (d : Document) :
    contentLoadOk fs d
      (if d.Content ≠ "" then d
       else match fs d.Path with
            | none => d
            | some content => { d with Content := content }) := by
  by_cases h : d.Content = ""
  · rcases hfs : fs d.Path with _ | content <;>
      simp [contentLoadOk, h, hfs]
  · simp [contentLoadOk, h]

/-- C9: every content-loading operation — the bulk loader
`loadDocumentContents` and the document-view handler's on-demand load —
moves a document's `Content` at most once from empty to the contents of the
file at its `Path`: a document with non-empty `Content` is left unchanged,
a failed read leaves `Content` empty, and no other field of any document is
modified (`List.Forall₂` also forces the output list to have the same
length and order). -/
theorem contentLoading_loadOnce (fs : String → Option String) (docs : List Document) :
    List.Forall₂ (contentLoadOk fs) docs (loadDocumentContents fs docs) ∧
    ∀ d : Document, contentLoadOk fs d (handleDocumentLoad fs d) := by
  constructor
  · induction docs with
    | nil => simp [loadDocumentContents]
    | cons d ds ih =>
      rw [loadDocumentContents] at ih ⊢
      simp only [List.map_cons, List.forall₂_cons]
      exact ⟨loadStep_contentLoadOk fs d, ih⟩
  · intro d
    have h := loadStep_contentLoadOk fs d
    by_cases hc : d.Content = ""
    · rcases hfs : fs d.Path with _ | content <;>
        simp_all [contentLoadOk, handleDocumentLoad, hc, hfs]
    · simp_all [contentLoadOk, handleDocumentLoad, hc]

/-- Witness for C9 at a concrete loader state: one unloaded document and a
file system that knows its path. -/
theorem contentLoading_loadOnce_witness :
    List.Forall₂
      (contentLoadOk (fun p => if p = "/r/a.md" then some "hello" else none))
      [{ Title := "T", Path := "/r/a.md", Content := "", RelPath := "a.md",
         DirName := "a.md", SourceDir := "/r", SourceName := "Docs",
         AbsPath := "r", Overview := "" }]
      (loadDocumentContents (fun p => if p = "/r/a.md" then some "hello" else none)
        [{ Title := "T", Path := "/r/a.md", Content := "", RelPath := "a.md",
           DirName := "a.md", SourceDir := "/r", SourceName := "Docs",
           AbsPath := "r", Overview := "" }]) :=
  (contentLoading_loadOnce (fun p => if p = "/r/a.md" then some "hello" else none)
    [{ Title := "T", Path := "/r/a.md", Content := "", RelPath := "a.md",
       DirName := "a.md", SourceDir := "/r", SourceName := "Docs",
       AbsPath := "r", Overview := "" }]).1

/-- C2: saving a document list to the cache and loading the cache back
yields the same list of documents, in order, with every field preserved
except `Content`, which is reset to the empty string. -/
theorem cache_roundtrip (version : String) (docs : List Document) :
    loadFromCache (saveToCache version docs) =
      docs.map (fun d => { d with Content := "" }) := by
  unfold loadFromCache saveToCache
  rw [List.map_map]
  rfl

/-- A string starting with a slash cannot start with `../`. -/
theorem goHasPrefix_slash_append (s : String) :
    goHasPrefix ("/" ++ s) "../" = false := by
  unfold goHasPrefix
  rw [String.data_append]
  simp [List.isPrefixOf]

/-- C4 counterexample: for a configured directory with an unset
`file_pattern`, `LoadConfig` compiles the anchored case-insensitive
`readme.md` pattern, which rejects the filename `notes.md` even though it
ends in `.md` — refuting the claim that the per-directory default matches
any `.md` file. -/
theorem filePattern_default_counterexample :
    filePatternFor { Path := "./docs", Name := "Docs", FilePattern := "" } =
      "^(?i)(readme\\.md)$" ∧
    readmePatternMatches "notes.md" = false ∧
    mdSuffixPatternMatches "notes.md" = true := by
  decide

/-- C4 (amended): for every configured directory whose `file_pattern` is
unset, the scanner uses the pattern `^(?i)(readme\.md)$`, which matches
exactly the filenames case-insensitively equal to `readme.md`; the
any-`.md` pattern `\.md$` belongs to the built-in default configuration,
not to the per-directory fallback. -/
theorem filePattern_default_readme (dirConfig : DirectoryConfig)
    (h : dirConfig.FilePattern = "") :
    filePatternFor dirConfig = "^(?i)(readme\\.md)$" ∧
    readmePatternMatches "README.md" = true ∧
    readmePatternMatches "ReadMe.mD" = true ∧
    readmePatternMatches "notes.md" = false ∧
    getDefaultConfig.Directories.map DirectoryConfig.FilePattern = ["\\.md$"] := by
  refine ⟨?_, by decide, by decide, by decide, by decide⟩
  unfold filePatternFor
  rw [h]
  rfl

/-- Witness for the amended C4 at the directory entry the built-in target
override would produce, with its pattern blanked. -/
theorem filePattern_default_readme_witness :
    filePatternFor { Path := "./", Name := "Documents", FilePattern := "" } =
      "^(?i)(readme\\.md)$" ∧
    readmePatternMatches "README.md" = true ∧
    readmePatternMatches "ReadMe.mD" = true ∧
    readmePatternMatches "notes.md" = false ∧
    getDefaultConfig.Directories.map DirectoryConfig.FilePattern = ["\\.md$"] :=
  filePattern_default_readme { Path := "./", Name := "Documents", FilePattern := "" } rfl

/-- C3 counterexample: a file in `/foo` scanned while the working directory
is `/a/b` — a directory two levels above the working directory — gets
`AbsPath` `/../foo`, not `/foo`: `strings.TrimPrefix` removes only the
first `../` of `../../foo` before the `/` is prepended. -/
theorem absPath_counterexample :
    (goFilepathRel "/a/b" "/foo").getD "" = "../../foo" ∧
    (processFile "/a/b" "/foo" "Documents" "/foo/x.md" "hello").AbsPath = "/../foo" ∧
    (processFile "/a/b" "/foo" "Documents" "/foo/x.md" "hello").AbsPath ≠ "/foo" := by
  decide

/-- C3 (amended): `AbsPath` is the file's containing directory expressed
relative to the process working directory; when that relative path starts
with `../`, exactly the first `../` is replaced by `/` (so `../../foo`
becomes `/../foo`); in particular `AbsPath` never begins with `../`. -/
theorem absPath_rewrite (wd rootDir sourceName path content : String) :
    goHasPrefix (processFile wd rootDir sourceName path content).AbsPath "../" = false ∧
    (processFile wd rootDir sourceName path content).AbsPath =
      (if goHasPrefix ((goFilepathRel wd (goFilepathDir (goFilepathAbs wd path))).getD "") "../"
       then "/" ++
         goTrimPrefix ((goFilepathRel wd (goFilepathDir (goFilepathAbs wd path))).getD "") "../"
       else (goFilepathRel wd (goFilepathDir (goFilepathAbs wd path))).getD "") := by
  have hAbs : (processFile wd rootDir sourceName path content).AbsPath =
      (if goHasPrefix ((goFilepathRel wd (goFilepathDir (goFilepathAbs wd path))).getD "") "../"
       then "/" ++
         goTrimPrefix ((goFilepathRel wd (goFilepathDir (goFilepathAbs wd path))).getD "") "../"
       else (goFilepathRel wd (goFilepathDir (goFilepathAbs wd path))).getD "") := rfl
  refine ⟨?_, hAbs⟩
  rw [hAbs]
  by_cases h : goHasPrefix ((goFilepathRel wd (goFilepathDir (goFilepathAbs wd path))).getD "") "../"
  · rw [if_pos h]
    exact goHasPrefix_slash_append _
  · rw [if_neg h]
    exact Bool.eq_false_iff.mpr h

/-- Witness for the amended C3 at the counterexample's inputs. -/
theorem absPath_rewrite_witness :
    goHasPrefix (processFile "/a/b" "/foo" "Documents" "/foo/x.md" "hello").AbsPath "../"
      = false ∧
    (processFile "/a/b" "/foo" "Documents" "/foo/x.md" "hello").AbsPath =
      (if goHasPrefix ((goFilepathRel "/a/b" (goFilepathDir (goFilepathAbs "/a/b" "/foo/x.md"))).getD "") "../"
       then "/" ++
         goTrimPrefix ((goFilepathRel "/a/b" (goFilepathDir (goFilepathAbs "/a/b" "/foo/x.md"))).getD "") "../"
       else (goFilepathRel "/a/b" (goFilepathDir (goFilepathAbs "/a/b" "/foo/x.md"))).getD "") :=
  absPath_rewrite "/a/b" "/foo" "Documents" "/foo/x.md" "hello"

/-- The closing-delimiter loop, expressed through `any`/`dropWhile`. -/
theorem stripFMLoop_spec (ls : List String) :
    stripFMLoop ls =
      (if ls.any (fun l => decide (goTrimSpace l = "---")) then
        some ((ls.dropWhile (fun l => !decide (goTrimSpace l = "---"))).drop 1)
      else none) := by
  induction ls with
  | nil => rfl
  | cons l ls ih =>
    by_cases h : goTrimSpace l = "---" <;>
      simp [stripFMLoop, h, List.any_cons, List.dropWhile_cons, ih]

/-- C10 counterexample: `"---\n---"` begins with a `---` delimiter line and
its second line trims to exactly `---`, so the claim predicts the lines
after the closing delimiter (the empty string); but the two-line guard
(`len(lines) < 3`) makes `stripFrontmatter` return the content unchanged. -/
theorem stripFrontmatter_counterexample :
    goHasPrefix "---\n---" "---\n" = true ∧
    goTrimSpace "---" = "---" ∧
    stripFrontmatter "---\n---" = "---\n---" ∧
    stripFrontmatter "---\n---" ≠ "" := by
  decide

/-- C10 (amended): `stripFrontmatter` returns its input unchanged unless
the content begins with a `---` delimiter line, splits into at least three
newline-separated lines, and some later line trims to exactly `---`; when
all three hold it returns exactly the lines after the first such closing
line joined by newlines (`stripFrontmatterSpec` states that wording). -/
theorem stripFrontmatter_eq_spec :
    (∀ content, stripFrontmatter content = stripFrontmatterSpec content) ∧
    stripFrontmatter "---\ntitle: x\n---\nbody\nmore" = "body\nmore" ∧
    stripFrontmatter "no fm" = "no fm" ∧
    stripFrontmatter "---\nunclosed\nstill" = "---\nunclosed\nstill" := by
  refine ⟨?_, by decide, by decide, by decide⟩
  intro content
  unfold stripFrontmatter stripFrontmatterSpec
  by_cases hpre : (goHasPrefix content "---\n" || goHasPrefix content "---\r\n") = true
  · by_cases hlen : (goSplitLines content).length < 3
    · have h3 : ¬ (3 ≤ (goSplitLines content).length) := by omega
      simp [hpre, hlen, h3]
    · have h3 : 3 ≤ (goSplitLines content).length := by omega
      simp [hpre, hlen, h3, stripFMLoop_spec]
      by_cases hex : ∃ x ∈ (goSplitLines content).tail, goTrimSpace x = "---" <;>
        simp [hex]
  · have hpre' : (goHasPrefix content "---\n" || goHasPrefix content "---\r\n") = false :=
      Bool.eq_false_iff.mpr hpre
    simp [hpre']

/-- Once the `## Overview` heading was found, the scan loop collects
exactly as the amended collection phase does. -/
theorem extractOverviewLoop_found (ls : List String) :
    ∀ acc, extractOverviewLoop ls true acc = overviewAmendedCollect ls acc := by
  induction ls with
  | nil => intro acc; rfl
  | cons l ls ih =>
    intro acc
    by_cases h1 : goHasPrefix (goTrimSpace l) "## Overview" = true
    · simp [extractOverviewLoop, overviewAmendedCollect, h1, ih]
    · by_cases h2 : goTrimSpace l = ""
      · by_cases h3 : acc.isEmpty = true <;>
          simp [extractOverviewLoop, overviewAmendedCollect, h1, h2, h3, ih]
      · by_cases h4 : goHasPrefix (goTrimSpace l) "#" = true
        · by_cases h3 : acc.isEmpty = true <;>
            simp [extractOverviewLoop, overviewAmendedCollect, h1, h2, h3, h4, ih]
        · simp [extractOverviewLoop, overviewAmendedCollect, h1, h2, h4, ih]

/-- Before the heading was found, the scan loop searches exactly as the
spec-side heading search does. -/
theorem extractOverviewLoop_search (ls : List String) :
    extractOverviewLoop ls false [] =
      (match overviewHeadingFind ls with
       | none => []
       | some rest => overviewAmendedCollect rest []) := by
  induction ls with
  | nil => rfl
  | cons l ls ih =>
    by_cases h1 : goHasPrefix (goTrimSpace l) "## Overview" = true
    · simp [extractOverviewLoop, overviewHeadingFind, h1, extractOverviewLoop_found]
    · simp [extractOverviewLoop, overviewHeadingFind, h1, ih]

/-- C5 counterexample: after `## Overview` and the content line `A`, a
second line starting with `## Overview` is a heading, and at least one
content line was already collected, so the claim predicts collection stops
with `"A"`; but the code skips any `## Overview`-prefixed line before its
stop check and keeps collecting, yielding `"A B"`. -/
theorem overview_counterexample :
    overviewClaimSpec "## Overview\nA\n## Overview\nB" = "A" ∧
    extractOverviewParagraph "## Overview\nA\n## Overview\nB" = "A B" ∧
    extractOverviewParagraph "## Overview\nA\n## Overview\nB" ≠
      overviewClaimSpec "## Overview\nA\n## Overview\nB" := by
  decide

/-- C5 (amended): the extracted Overview is the first paragraph after the
first line whose trimmed form starts with `## Overview`, where blank lines
directly after the heading are skipped, lines whose trimmed form starts
with `## Overview` are always skipped, collection stops at the next other
heading or at a blank line once at least one content line was collected,
collected lines are joined with single spaces, and content without the
heading yields an empty Overview (`overviewAmendedSpec` states that
wording); on the claim's example the result is `"Line one. Line two."`. -/
theorem overview_extraction_eq_spec :
    (∀ content, extractOverviewParagraph content = overviewAmendedSpec content) ∧
    extractOverviewParagraph "## Overview\nLine one.\nLine two.\n\n## Next" =
      "Line one. Line two." := by
  refine ⟨?_, by decide⟩
  intro content
  unfold extractOverviewParagraph overviewAmendedSpec
  rw [extractOverviewLoop_search]
  rcases overviewHeadingFind (goSplitLines content) with _ | rest <;> rfl

/-- Every piece produced by the character splitter is the pending
accumulator followed by a prefix of the input, or an infix of the input. -/
theorem splitCharAux_mem (sep : Char) :
    ∀ (cs acc l : List Char), l ∈ splitCharAux sep cs acc →
      (∃ t, l = acc.reverse ++ t ∧ t <+: cs) ∨ l <:+: cs := by
  intro cs
  induction cs with
  | nil =>
    intro acc l hl
    simp only [splitCharAux, List.mem_singleton] at hl
    exact Or.inl ⟨[], by simp [hl], List.nil_prefix⟩
  | cons c cs ih =>
    intro acc l hl
    rw [splitCharAux] at hl
    by_cases h : c = sep
    · rw [if_pos h] at hl
      rcases List.mem_cons.mp hl with h1 | h1
      · exact Or.inl ⟨[], by simp [h1], List.nil_prefix⟩
      · rcases ih [] l h1 with ⟨t, ht, hpre⟩ | hinf
        · right
          simp only [List.reverse_nil, List.nil_append] at ht
          subst ht
          exact List.infix_cons hpre.isInfix
        · exact Or.inr (List.infix_cons hinf)
    · rw [if_neg h] at hl
      rcases ih (c :: acc) l hl with ⟨t, ht, hpre⟩ | hinf
      · left
        refine ⟨c :: t, ?_, List.cons_prefix_cons.mpr ⟨rfl, hpre⟩⟩
        rw [ht]
        simp
      · exact Or.inr (List.infix_cons hinf)

/-- Every line of `goSplitLines s` is an infix of `s`. -/
theorem mem_goSplitLines_sub {s line : String} (h : line ∈ goSplitLines s) :
    line.data <:+: s.data := by
  unfold goSplitLines splitOnChar at h
  rcases List.mem_map.mp h with ⟨cs, hcs, hline⟩
  rcases splitCharAux_mem '\n' s.data [] cs hcs with ⟨t, ht, hpre⟩ | hinf
  · rw [← hline]
    simp only [List.reverse_nil, List.nil_append] at ht
    subst ht
    exact hpre.isInfix
  · rw [← hline]
    exact hinf

/-- A line beginning with `# ` witnesses `strings.Contains(content, "# ")`. -/
theorem line_prefix_goContains {content line : String}
    (hmem : line ∈ goSplitLines content) (hpre : goHasPrefix line "# " = true) :
    goContains content "# " = true := by
  unfold goContains
  rw [decide_eq_true_iff]
  exact (List.isPrefixOf_iff_prefix.mp hpre).isInfix.trans (mem_goSplitLines_sub hmem)

/-- C6: a scanned file's `Title` is the text after `# ` on the first line
of the file beginning with `# `, and when no line begins with `# ` the
`Title` equals the document's `DirName`; on the claim's example
`"# My Title\nBody"` the title is `"My Title"`. -/
theorem title_from_first_heading :
    (∀ (wd rootDir sourceName path content : String),
      (match (goSplitLines content).find? (fun line => goHasPrefix line "# ") with
       | some line =>
         (processFile wd rootDir sourceName path content).Title = ⟨line.data.drop 2⟩
       | none =>
         (processFile wd rootDir sourceName path content).Title =
           (processFile wd rootDir sourceName path content).DirName)) ∧
    (processFile "/a/b" "/a/b/docs" "Documents" "/a/b/docs/x.md" "# My Title\nBody").Title
      = "My Title" := by
  refine ⟨?_, by decide⟩
  intro wd rootDir sourceName path content
  have hTitle : (processFile wd rootDir sourceName path content).Title =
      (if goContains content "# " then
        match (goSplitLines content).find? (fun line => goHasPrefix line "# ") with
        | some line => goTrimPrefix line "# "
        | none => (processFile wd rootDir sourceName path content).DirName
      else (processFile wd rootDir sourceName path content).DirName) := rfl
  rcases hf : (goSplitLines content).find? (fun line => goHasPrefix line "# ") with _ | line
  · simp only [hf] at hTitle ⊢
    rw [hTitle]
    exact ite_self _
  · simp only [hf] at hTitle ⊢
    have hp : goHasPrefix line "# " = true :=
      @List.find?_some String (fun l => goHasPrefix l "# ") line (goSplitLines content) hf
    have hc : goContains content "# " = true :=
      line_prefix_goContains
        (@List.mem_of_find?_eq_some String (fun l => goHasPrefix l "# ") line
          (goSplitLines content) hf) hp
    rw [hTitle, if_pos hc]
    unfold goTrimPrefix
    rw [if_pos hp]
    rfl

/-- The "Setup Guide" document of the claim's search scenario. -/
def setupGuideDoc : Document :=
  { Title := "Setup Guide", Path := "", Content := "Install steps", RelPath := "",
    DirName := "", SourceDir := "", SourceName := "", AbsPath := "", Overview := "" }

/-- The "FAQ" document of the claim's search scenario. -/
def faqDoc : Document :=
  { Title := "FAQ", Path := "", Content := "Setup questions", RelPath := "",
    DirName := "", SourceDir := "", SourceName := "", AbsPath := "", Overview := "" }

/-- C7 counterexample: for the padded query `" setup "`, no field of the
document titled `"setup"` contains `" setup "` as a case-insensitive
substring, so the claim predicts an empty result; but `handleSearch` trims
the query before matching and returns the document. -/
theorem search_counterexample :
    handleSearchResults
      [{ Title := "setup", Path := "", Content := "", RelPath := "", DirName := "",
         SourceDir := "", SourceName := "", AbsPath := "", Overview := "" }]
      " setup " =
      [{ Title := "setup", Path := "", Content := "", RelPath := "", DirName := "",
         SourceDir := "", SourceName := "", AbsPath := "", Overview := "" }] ∧
    goContains (goToLower "setup") (goToLower " setup ") = false ∧
    goContains (goToLower "") (goToLower " setup ") = false := by
  decide

/-- C7 (amended): the search returns exactly the documents whose `Title`,
`Content` or `Overview` contains the whitespace-trimmed query as a
case-insensitive substring, and a query that is empty after trimming
returns an empty result list; the claim's scenario behaves as stated. -/
theorem search_matches_trimmed_query :
    (∀ (docs : List Document) (rawQuery : String) (d : Document),
      d ∈ handleSearchResults docs rawQuery ↔
        (goTrimSpace rawQuery ≠ "" ∧ d ∈ docs ∧
          (goContains (goToLower d.Title) (goToLower (goTrimSpace rawQuery)) = true ∨
           goContains (goToLower d.Content) (goToLower (goTrimSpace rawQuery)) = true ∨
           goContains (goToLower d.Overview) (goToLower (goTrimSpace rawQuery)) = true))) ∧
    handleSearchResults [setupGuideDoc, faqDoc] "setup" = [setupGuideDoc, faqDoc] ∧
    handleSearchResults [setupGuideDoc, faqDoc] "" = [] := by
  refine ⟨?_, by decide, by decide⟩
  intro docs rawQuery d
  by_cases h : goToLower (goTrimSpace rawQuery) = ""
  · have h' : goTrimSpace rawQuery = "" := (goToLower_eq_empty_iff _).mp h
    simp [handleSearchResults, h, h']
    exact fun hh => absurd rfl hh
  · have h' : goTrimSpace rawQuery ≠ "" :=
      fun hh => h ((goToLower_eq_empty_iff _).mpr hh)
    simp [handleSearchResults, h, h', List.mem_filter, searchMatches,
      Bool.or_eq_true, and_assoc]
    exact fun _ => or_assoc

/-- A document produced while walking a list of children comes from one of
the children, walked at its extended path. -/
theorem walkScanList_mem (ign : List (String → Bool)) (fre : String → Bool)
    (wd rd sn : String) (segs : List String) (es : List FSEntry) (doc : Document)
    (h : doc ∈ walkScanList ign fre wd rd sn segs es) :
    ∃ e ∈ es, doc ∈ walkScan ign fre wd rd sn (segs ++ [e.entryName]) e := by
  induction es with
  | nil => simp [walkScanList] at h
  | cons e es ih =>
    rw [walkScanList] at h
    rcases List.mem_append.mp h with h1 | h1
    · exact ⟨e, List.mem_cons_self e es, h1⟩
    · rcases ih h1 with ⟨e', he', hd⟩
      exact ⟨e', List.mem_cons_of_mem e he', hd⟩

/-- Every document the walk produces sits at a path extending the walk's
starting path, and neither that path nor any intermediate path on the way
down is ignored: the walk prunes ignored directories whole and drops
ignored files. -/
theorem walkScan_mem_spec (ign : List (String → Bool)) (fre : String → Bool)
    (wd rd sn : String) :
    ∀ (e : FSEntry) (segs : List String) (doc : Document),
      doc ∈ walkScan ign fre wd rd sn segs e →
      ∃ fsegs, segs <+: fsegs ∧ doc.Path = joinPath fsegs ∧
        ∀ q, segs <+: q → q <+: fsegs → shouldIgnorePath ign (joinPath q) = false := by
  suffices H : ∀ (n : ℕ) (e : FSEntry), sizeOf e ≤ n →
      ∀ (segs : List String) (doc : Document),
        doc ∈ walkScan ign fre wd rd sn segs e →
        ∃ fsegs, segs <+: fsegs ∧ doc.Path = joinPath fsegs ∧
          ∀ q, segs <+: q → q <+: fsegs → shouldIgnorePath ign (joinPath q) = false by
    exact fun e => H (sizeOf e) e le_rfl
  intro n
  induction n using Nat.strong_induction_on with
  | _ n ih =>
    intro e hle segs doc hmem
    cases e with
    | file nm content =>
      rw [walkScan] at hmem
      by_cases hign : shouldIgnorePath ign (joinPath segs) = true
      · rw [if_pos hign] at hmem
        simp at hmem
      · rw [if_neg hign] at hmem
        by_cases hreg : fre (goFilepathBase (joinPath segs)) = true
        · rw [if_pos hreg] at hmem
          have hdoc : doc = processFile wd rd sn (joinPath segs) content :=
            List.mem_singleton.mp hmem
          refine ⟨segs, List.prefix_refl segs, by rw [hdoc]; rfl, ?_⟩
          intro q h1 h2
          have hlen : q.length = segs.length :=
            le_antisymm h2.length_le h1.length_le
          rw [h2.eq_of_length hlen]
          exact Bool.eq_false_iff.mpr hign
        · rw [if_neg hreg] at hmem
          simp at hmem
    | dir nm entries =>
      rw [walkScan] at hmem
      by_cases hign : shouldIgnorePath ign (joinPath segs) = true
      · rw [if_pos hign] at hmem
        simp at hmem
      · rw [if_neg hign] at hmem
        rcases walkScanList_mem ign fre wd rd sn segs entries doc hmem with ⟨e', he', hd⟩
        have hsz : sizeOf e' < n := by
          have h1 : sizeOf e' < sizeOf entries := List.sizeOf_lt_of_mem he'
          have h2 : sizeOf (FSEntry.dir nm entries) ≤ n := hle
          simp only [FSEntry.dir.sizeOf_spec] at h2
          omega
        rcases ih (sizeOf e') hsz e' le_rfl (segs ++ [e'.entryName]) doc hd with
          ⟨fsegs, hpre, hpath, hq⟩
        refine ⟨fsegs, (List.prefix_append segs [e'.entryName]).trans hpre, hpath, ?_⟩
        intro q h1 h2
        rcases List.prefix_or_prefix_of_prefix h2 hpre with hcase | hcase
        · obtain ⟨u, rfl⟩ := h1
          obtain ⟨r, hr⟩ := hcase
          rw [List.append_assoc] at hr
          have hur : u ++ r = [e'.entryName] := by
            have := List.append_cancel_left hr
            exact this
          cases u with
          | nil =>
            rw [List.append_nil]
            exact Bool.eq_false_iff.mpr hign
          | cons a u' =>
            rw [List.cons_append] at hur
            have ha : a = e'.entryName ∧ u' ++ r = [] := by
              have h3 := List.cons.injEq a (u' ++ r) e'.entryName [] ▸ hur
              exact ⟨h3.1, h3.2⟩
            have hu' : u' = [] := (List.append_eq_nil.mp ha.2).1
            subst hu'
            rw [ha.1]
            exact hq (segs ++ [e'.entryName]) (List.prefix_refl _) hpre
        · exact hq q hcase h2

/-- C1: no path matching a compiled ignore pattern, and no descendant of an
ignored directory, contributes a `Document` to a directory scan: an ignored
root yields an empty scan, and every produced document lies on a chain of
walked paths (from the scan root to the file itself) on which
`shouldIgnorePath` is everywhere false. -/
theorem scanDirectory_respects_ignores (ign : List (String → Bool))
    (fre : String → Bool) (wd sn : String) (rootSegs : List String) (root : FSEntry) :
    (shouldIgnorePath ign (joinPath rootSegs) = true →
      scanDirectory ign fre wd sn rootSegs root = []) ∧
    ∀ doc ∈ scanDirectory ign fre wd sn rootSegs root,
      shouldIgnorePath ign doc.Path = false ∧
      ∃ fsegs, rootSegs <+: fsegs ∧ doc.Path = joinPath fsegs ∧
        ∀ q, rootSegs <+: q → q <+: fsegs →
          shouldIgnorePath ign (joinPath q) = false := by
  constructor
  · intro hign
    unfold scanDirectory
    cases root <;> rw [walkScan, if_pos hign]
  · intro doc hmem
    rcases walkScan_mem_spec ign fre wd (joinPath rootSegs) sn root rootSegs doc hmem with
      ⟨fsegs, hpre, hpath, hq⟩
    refine ⟨?_, fsegs, hpre, hpath, hq⟩
    rw [hpath]
    exact hq fsegs hpre (List.prefix_refl fsegs)

/-- Witness for C1: a scan whose root matches an ignore pattern produces
nothing, and a produced document of a scan with an ignored subdirectory
satisfies the unignored-chain property. -/
theorem scanDirectory_respects_ignores_witness :
    (scanDirectory [fun p => goContains p "skip"] (fun nm => goHasSuffix nm ".md")
      "/w" "Docs" ["", "skiproot"] (.dir "skiproot" [.file "ok.md" "hello"]) = []) ∧
    (shouldIgnorePath [fun p => goContains p "skip"]
        (processFile "/w" "/r" "Docs" "/r/ok.md" "hello").Path = false ∧
      ∃ fsegs, ["", "r"] <+: fsegs ∧
        (processFile "/w" "/r" "Docs" "/r/ok.md" "hello").Path = joinPath fsegs ∧
        ∀ q, ["", "r"] <+: q → q <+: fsegs →
          shouldIgnorePath [fun p => goContains p "skip"] (joinPath q) = false) :=
  ⟨(scanDirectory_respects_ignores [fun p => goContains p "skip"]
      (fun nm => goHasSuffix nm ".md") "/w" "Docs" ["", "skiproot"]
      (.dir "skiproot" [.file "ok.md" "hello"])).1 (by decide),
   (scanDirectory_respects_ignores [fun p => goContains p "skip"]
      (fun nm => goHasSuffix nm ".md") "/w" "Docs" ["", "r"]
      (.dir "r" [.file "ok.md" "hello", .dir "skipdir" [.file "bad.md" "y"]])).2
      (processFile "/w" "/r" "Docs" "/r/ok.md" "hello") (by decide)⟩

/-- C8: building the directory trees is deterministic up to the unspecified
iteration order of Go's `groupMap`: any two iteration orders of the same
source names over the same unmutated document list give the same set of
trees, and trees with equal names are structurally identical — same node
names, same first-seen child order, same file-node document references. -/
theorem buildTrees_deterministic (docs : List Document) (order₁ order₂ : List String)
    (hperm : order₁.Perm order₂) :
    (BuildDirectoryTrees docs order₁).Perm (BuildDirectoryTrees docs order₂) ∧
    ∀ t₁ ∈ BuildDirectoryTrees docs order₁, ∀ t₂ ∈ BuildDirectoryTrees docs order₂,
      t₁.Name = t₂.Name → t₁ = t₂ := by
  constructor
  · exact hperm.map (buildTreeFor docs)
  · intro t₁ ht₁ t₂ ht₂ hname
    rcases List.mem_map.mp ht₁ with ⟨sn₁, _, h₁⟩
    rcases List.mem_map.mp ht₂ with ⟨sn₂, _, h₂⟩
    have hsn : sn₁ = sn₂ := by
      have e₁ : t₁.Name = sn₁ := by rw [← h₁]; rfl
      have e₂ : t₂.Name = sn₂ := by rw [← h₂]; rfl
      rw [← e₁, ← e₂, hname]
    rw [← h₁, ← h₂, hsn]

/-- Witness for C8: two opposite iteration orders over a two-source
document list. -/
theorem buildTrees_deterministic_witness :
    (BuildDirectoryTrees
      [{ Title := "T", Path := "/r/a.md", Content := "", RelPath := "a.md",
         DirName := "a.md", SourceDir := "/r", SourceName := "A", AbsPath := "r",
         Overview := "" },
       { Title := "U", Path := "/s/b.md", Content := "", RelPath := "b.md",
         DirName := "b.md", SourceDir := "/s", SourceName := "B", AbsPath := "s",
         Overview := "" }] ["A", "B"]).Perm
      (BuildDirectoryTrees
        [{ Title := "T", Path := "/r/a.md", Content := "", RelPath := "a.md",
           DirName := "a.md", SourceDir := "/r", SourceName := "A", AbsPath := "r",
           Overview := "" },
         { Title := "U", Path := "/s/b.md", Content := "", RelPath := "b.md",
           DirName := "b.md", SourceDir := "/s", SourceName := "B", AbsPath := "s",
           Overview := "" }] ["B", "A"]) ∧
    ∀ t₁ ∈ BuildDirectoryTrees
      [{ Title := "T", Path := "/r/a.md", Content := "", RelPath := "a.md",
         DirName := "a.md", SourceDir := "/r", SourceName := "A", AbsPath := "r",
         Overview := "" },
       { Title := "U", Path := "/s/b.md", Content := "", RelPath := "b.md",
         DirName := "b.md", SourceDir := "/s", SourceName := "B", AbsPath := "s",
         Overview := "" }] ["A", "B"],
      ∀ t₂ ∈ BuildDirectoryTrees
        [{ Title := "T", Path := "/r/a.md", Content := "", RelPath := "a.md",
           DirName := "a.md", SourceDir := "/r", SourceName := "A", AbsPath := "r",
           Overview := "" },
         { Title := "U", Path := "/s/b.md", Content := "", RelPath := "b.md",
           DirName := "b.md", SourceDir := "/s", SourceName := "B", AbsPath := "s",
           Overview := "" }] ["B", "A"],
        t₁.Name = t₂.Name → t₁ = t₂ :=
  buildTrees_deterministic
    [{ Title := "T", Path := "/r/a.md", Content := "", RelPath := "a.md",
       DirName := "a.md", SourceDir := "/r", SourceName := "A", AbsPath := "r",
       Overview := "" },
     { Title := "U", Path := "/s/b.md", Content := "", RelPath := "b.md",
       DirName := "b.md", SourceDir := "/s", SourceName := "B", AbsPath := "s",
       Overview := "" }] ["A", "B"] ["B", "A"] (List.Perm.swap "B" "A" [])
